import Mathlib

/-!
Verification of the SmartServe booking/table domain-invariant logic.

This file gives a shallow embedding of the Django models defined in
`smartserve/models/__init__.py`, `smartserve/models/signals.py` and
`smartserve/models/utils.py`.  Database rows become Lean structures held in
lists inside a `State`; the ORM querysets become list filters; the model
`clean` validation hooks become functions returning `Except VError Unit`;
the unbounded Python recursions over the table hierarchy (`true_number`,
`SeatManager.get_sub_table_seats`, `check_container_table_not_in_sub_tables`)
become fuel-indexed recursions, with the fuel chosen large enough that, on
acyclic states, the fuel never runs out.
-/

namespace SmartServe

/-- Machine code attached to a Django `ValidationError`. -/
inductive ErrCode where
  | invalid
  | unique
  deriving DecidableEq, Repr

/-- A structured validation error: optional field name, message, code
(mirrors a single-field Django `ValidationError`). -/
structure VError where
  field : Option String
  message : String
  code : ErrCode
  deriving DecidableEq, Repr

/-- Row of the `User` model (fields relevant to the validated invariants).
`pk` is `none` while the row is unsaved. -/
structure UserR where
  pk : Option Nat
  employee_id : String
  first_name : String
  last_name : String
  is_staff : Bool
  is_active : Bool
  is_superuser : Bool
  deriving DecidableEq, Repr

/-- Row of the `Restaurant` model. -/
structure Restaurant where
  id : Nat
  name : String
  deriving DecidableEq, Repr

/-- Row of the `Table` model: `number` unique per restaurant, optional
self-referencing `container_table` foreign key. -/
structure Table where
  id : Nat
  number : Nat
  restaurant : Nat
  container_table : Option Nat
  deriving DecidableEq, Repr

/-- Row of the `Seat` model. -/
structure Seat where
  id : Nat
  table : Nat
  location_index : Nat
  deriving DecidableEq, Repr

/-- Row of the `Booking` model; `start`/`end_` are timestamps modelled as
integers (the code only compares them). -/
structure Booking where
  id : Nat
  start : Int
  end_ : Int
  deriving DecidableEq, Repr

/-- Row of the `SeatBooking` join model.  `pk` is `none` while unsaved
(the value `self.pk` tested by `SeatBooking.clean`). -/
structure SeatBooking where
  pk : Option Nat
  seat : Nat
  booking : Nat
  face : Nat
  deriving DecidableEq, Repr

/-- Row of the `MenuItem` model. -/
structure MenuItem where
  id : Nat
  name : String
  deriving DecidableEq, Repr

/-- Row of the `Order` model; `course` is the `Courses` enum value. -/
structure OrderR where
  pk : Option Nat
  menu_item : Nat
  seat_booking : Nat
  course : Nat
  notes : String
  deriving DecidableEq, Repr

/-- The persisted database state: one list per model plus the two
many-to-many join tables (`Restaurant.employees` and
`MenuItem.available_at_restaurants`). -/
structure State where
  users : List UserR
  restaurants : List Restaurant
  tables : List Table
  seats : List Seat
  bookings : List Booking
  seatBookings : List SeatBooking
  menuItems : List MenuItem
  employees : List (Nat × Nat)
  availableAt : List (Nat × Nat)
  deriving DecidableEq, Repr

deriving instance DecidableEq for Except

/-- Primary-key lookup on the tables list (an ORM `get`/FK dereference). -/
def find_table (s : State) (id : Nat) : Option Table :=
  s.tables.find? (fun t => t.id == id)

/-- Primary-key lookup on the bookings list. -/
def find_booking (s : State) (id : Nat) : Option Booking :=
  s.bookings.find? (fun b => b.id == id)

/-- Primary-key lookup on the seats list. -/
def find_seat (s : State) (id : Nat) : Option Seat :=
  s.seats.find? (fun st => st.id == id)

/-- The id of a seat's table (`seat.table` FK), when the seat exists. -/
def seat_table (s : State) (seatId : Nat) : Option Nat :=
  (find_seat s seatId).map (fun st => st.table)

/-- The restaurant id of a seat's table (`seat.table.restaurant`). -/
def seat_restaurant (s : State) (seatId : Nat) : Option Nat :=
  match seat_table s seatId with
  | none => none
  | some tid => (find_table s tid).map (fun t => t.restaurant)

/-- Fuel-indexed embedding of the recursive property `Table.true_number`:
follow `container_table` links to the root and return that root's `number`.
Returns `none` when the fuel runs out (the Python recursion would not
terminate on a cyclic state) or when a `container_table` id is dangling. -/
def true_number_fuel (s : State) : Nat → Table → Option Nat
  | 0, _ => none
  | fuel + 1, t =>
    match t.container_table with
    | none => some t.number
    | some cid =>
      match find_table s cid with
      | none => none
      | some ct => true_number_fuel s fuel ct

/-- `Table.true_number` with enough fuel to traverse any acyclic state. -/
def true_number (s : State) (t : Table) : Option Nat :=
  true_number_fuel s (s.tables.length + 1) t

/-- Every `container_table` id points at an existing table (foreign-key
integrity, which the database guarantees for persisted rows). -/
def tables_closed (s : State) : Bool :=
  s.tables.all fun t =>
    match t.container_table with
    | none => true
    | some cid => s.tables.any fun ct => ct.id == cid

/-- The function `rank` is a topological rank for the container-table graph:
bounded by the number of tables and strictly decreasing along every
`container_table` edge. -/
def rank_ok (s : State) (rank : Nat → Nat) : Bool :=
  s.tables.all fun t =>
    decide (rank t.id < s.tables.length) &&
    (match t.container_table with
     | none => true
     | some cid => decide (rank cid < rank t.id))

/-- The container-table graph is acyclic: it admits a topological rank.
This is exactly the invariant that the write-time cycle rejection in
`Table.clean` maintains. -/
def TablesAcyclic (s : State) : Prop :=
  ∃ rank : Nat → Nat, rank_ok s rank = true

theorem tables_closed_spec {s : State} (h : tables_closed s = true) :
    ∀ t ∈ s.tables, ∀ cid, t.container_table = some cid →
      ∃ ct ∈ s.tables, ct.id = cid := by
  intro t ht cid hcid
  rw [tables_closed, List.all_eq_true] at h
  have := h t ht
  rw [hcid, List.any_eq_true] at this
  obtain ⟨ct, hctmem, hcteq⟩ := this
  exact ⟨ct, hctmem, by simpa using hcteq⟩

theorem rank_ok_bound {s : State} {rank : Nat → Nat} (h : rank_ok s rank = true) :
    ∀ t ∈ s.tables, rank t.id < s.tables.length := by
  intro t ht
  rw [rank_ok, List.all_eq_true] at h
  have := h t ht
  rw [Bool.and_eq_true] at this
  simpa using this.1

theorem rank_ok_lt {s : State} {rank : Nat → Nat} (h : rank_ok s rank = true) :
    ∀ t ∈ s.tables, ∀ cid, t.container_table = some cid → rank cid < rank t.id := by
  intro t ht cid hcid
  rw [rank_ok, List.all_eq_true] at h
  have := h t ht
  rw [Bool.and_eq_true] at this
  have h2 := this.2
  rw [hcid] at h2
  simpa using h2

theorem find_table_eq_some {s : State} {id : Nat} {t : Table}
    (h : find_table s id = some t) : t ∈ s.tables ∧ t.id = id := by
  unfold find_table at h
  refine ⟨List.mem_of_find?_eq_some h, ?_⟩
  have := List.find?_some h
  simpa using this

theorem find_table_isSome_of_mem {s : State} {id : Nat}
    (h : ∃ ct ∈ s.tables, ct.id = id) : (find_table s id).isSome := by
  obtain ⟨ct, hmem, hid⟩ := h
  unfold find_table
  rw [List.find?_isSome]
  exact ⟨ct, hmem, by simp [hid]⟩

/-- With more fuel, a `true_number` computation that already succeeded
returns the same value. -/
theorem true_number_fuel_mono (s : State) :
    ∀ fuel t, (true_number_fuel s fuel t).isSome →
      ∀ gas, fuel ≤ gas → true_number_fuel s gas t = true_number_fuel s fuel t := by
  intro fuel
  induction fuel with
  | zero => intro t h; simp [true_number_fuel] at h
  | succ f ih =>
    intro t h gas hle
    obtain ⟨g, rfl⟩ : ∃ g, gas = g + 1 := ⟨gas - 1, by omega⟩
    have hfg : f ≤ g := by omega
    simp only [true_number_fuel] at h ⊢
    cases hct : t.container_table with
    | none => simp [hct]
    | some cid =>
      simp only [hct] at h ⊢
      cases hf : find_table s cid with
      | none => simp [hf] at h
      | some ct =>
        simp only [hf] at h ⊢
        exact ih ct h g hfg

/-- On a closed, acyclic state, `true_number` terminates: any fuel above the
table's rank suffices. -/
theorem true_number_fuel_terminates (s : State) (rank : Nat → Nat)
    (hrank : ∀ t ∈ s.tables, ∀ cid, t.container_table = some cid → rank cid < rank t.id)
    (hclosed : tables_closed s = true) :
    ∀ fuel t, t ∈ s.tables → rank t.id < fuel →
      (true_number_fuel s fuel t).isSome := by
  intro fuel
  induction fuel with
  | zero => intro t _ h; omega
  | succ f ih =>
    intro t hmem _hlt
    simp only [true_number_fuel]
    cases hct : t.container_table with
    | none => simp
    | some cid =>
      have hex := tables_closed_spec hclosed t hmem cid hct
      have hsome := find_table_isSome_of_mem hex
      cases hf : find_table s cid with
      | none => rw [hf] at hsome; simp at hsome
      | some ct =>
        simp only [hf]
        have ⟨hctmem, hctid⟩ := find_table_eq_some hf
        have h1 : rank cid < rank t.id := hrank t hmem cid hct
        exact ih ct hctmem (by rw [hctid]; omega)

/-- Claim C3: for every table T, `true_number(T)` equals
`true_number(container_table(T))` when T has a container table and equals
`number(T)` otherwise; and on closed acyclic states — the invariant that the
write-time cycle rejection in `Table.clean` maintains — the recursion
terminates (`true_number` returns a value instead of running out of fuel). -/
theorem C3_true_number (s : State) (t : Table)
    (hacyc : TablesAcyclic s) (hclosed : tables_closed s = true)
    (hmem : t ∈ s.tables) :
    (true_number s t).isSome = true ∧
    (∀ cid ct, t.container_table = some cid → find_table s cid = some ct →
      true_number s t = true_number s ct) ∧
    (t.container_table = none → true_number s t = some t.number) := by
  obtain ⟨rank, hrank⟩ := hacyc
  have hlt := rank_ok_lt hrank
  have hbd := rank_ok_bound hrank
  refine ⟨?_, ?_, ?_⟩
  · exact true_number_fuel_terminates s rank hlt hclosed _ t hmem
      (by have := hbd t hmem; omega)
  · intro cid ct hcid hct
    have ⟨hctmem, _⟩ := find_table_eq_some hct
    show true_number_fuel s (s.tables.length + 1) t = true_number s ct
    simp only [true_number_fuel, hcid, hct]
    have hsome : (true_number_fuel s s.tables.length ct).isSome :=
      true_number_fuel_terminates s rank hlt hclosed _ ct hctmem (hbd ct hctmem)
    unfold true_number
    exact (true_number_fuel_mono s _ ct hsome _ (Nat.le_succ _)).symm
  · intro hnone
    show true_number_fuel s (s.tables.length + 1) t = some t.number
    simp only [true_number_fuel, hnone]

/-- A two-table hierarchy: table 1 is a sub-table of root table 0. -/
def stA : State :=
  ⟨[], [], [⟨0, 7, 1, none⟩, ⟨1, 4, 1, some 0⟩], [], [], [], [], [], []⟩

/-- Concrete instantiation of `C3_true_number` on `stA`. -/
theorem C3_true_number_witness :
    TablesAcyclic stA ∧ tables_closed stA = true ∧
      (⟨1, 4, 1, some 0⟩ : Table) ∈ stA.tables ∧
      ((true_number stA ⟨1, 4, 1, some 0⟩).isSome = true ∧
        (∀ cid ct, (some 0 : Option Nat) = some cid → find_table stA cid = some ct →
          true_number stA ⟨1, 4, 1, some 0⟩ = true_number stA ct) ∧
        ((some 0 : Option Nat) = none →
          true_number stA ⟨1, 4, 1, some 0⟩ = some 4)) :=
  ⟨⟨fun i => i, by decide⟩, by decide, by decide,
    C3_true_number stA ⟨1, 4, 1, some 0⟩ ⟨fun i => i, by decide⟩ (by decide) (by decide)⟩

/-- The ids of the seats directly attached to a table (the `_seats` reverse
foreign-key manager). -/
def seats_of_table (s : State) (tid : Nat) : List Nat :=
  (s.seats.filter (fun st => st.table == tid)).map (fun st => st.id)

/-- The direct sub-tables of a table (the `sub_tables` reverse foreign-key
manager). -/
def sub_tables (s : State) (tid : Nat) : List Table :=
  s.tables.filter (fun t2 => t2.container_table == some tid)

/-- Fuel-indexed embedding of `SeatManager.get_sub_table_seats`: the seats of
the table itself unioned, recursively, with the seats of every transitive
sub-table.  The result is the set of seat ids. -/
def get_sub_table_seats (s : State) : Nat → Table → Finset Nat
  | 0, t => (seats_of_table s t.id).toFinset
  | fuel + 1, t =>
    if (sub_tables s t.id).isEmpty then (seats_of_table s t.id).toFinset
    else
      (sub_tables s t.id).foldl
        (fun seats st => seats ∪ get_sub_table_seats s fuel st)
        (seats_of_table s t.id).toFinset

/-- `SeatManager.get_queryset`: the effective seat set of a table is the
recursively gathered sub-table seats when the table has no container, and
just its own seats otherwise. -/
def effective_seats (s : State) (t : Table) : Finset Nat :=
  if t.container_table = none then get_sub_table_seats s s.tables.length t
  else (seats_of_table s t.id).toFinset

/-- Depth bound for the downward sub-table recursion: every chain of
sub-tables starting at `t` is exhausted within `n` levels. -/
def DownBound (s : State) : Nat → Table → Prop
  | 0, t => sub_tables s t.id = []
  | n + 1, t => ∀ st ∈ sub_tables s t.id, DownBound s n st

theorem DownBound.mono {s : State} :
    ∀ {n : Nat} {t : Table}, DownBound s n t → DownBound s (n + 1) t := by
  intro n
  induction n with
  | zero =>
    intro t h st hst
    rw [DownBound] at h
    rw [h] at hst
    simp at hst
  | succ m ih =>
    intro t h st hst
    exact ih (h st hst)

theorem foldl_union_init {α : Type} (f : α → Finset Nat) (l : List α) :
    ∀ init : Finset Nat,
      l.foldl (fun acc x => acc ∪ f x) init =
        init ∪ l.foldl (fun acc x => acc ∪ f x) ∅ := by
  induction l with
  | nil => intro init; simp
  | cons x xs ih =>
    intro init
    simp only [List.foldl_cons]
    rw [ih (init ∪ f x), ih (∅ ∪ f x), Finset.empty_union, Finset.union_assoc]

theorem foldl_union_congr {α : Type} {f g : α → Finset Nat} {l : List α}
    (h : ∀ x ∈ l, f x = g x) :
    ∀ init : Finset Nat,
      l.foldl (fun acc x => acc ∪ f x) init = l.foldl (fun acc x => acc ∪ g x) init := by
  induction l with
  | nil => intro init; rfl
  | cons x xs ih =>
    intro init
    simp only [List.foldl_cons]
    rw [h x (by simp), ih (fun y hy => h y (by simp [hy]))]

/-- Under a depth bound, `get_sub_table_seats` no longer depends on the fuel
once the fuel covers the depth. -/
theorem get_sub_table_seats_stable {s : State} :
    ∀ (n : Nat) (t : Table), DownBound s n t →
      ∀ f₁ f₂, n ≤ f₁ → n ≤ f₂ →
        get_sub_table_seats s f₁ t = get_sub_table_seats s f₂ t := by
  intro n
  induction n with
  | zero =>
    intro t h f₁ f₂ _ _
    rw [DownBound] at h
    have hempty : (sub_tables s t.id).isEmpty = true := by simp [h]
    cases f₁ <;> cases f₂ <;> simp [get_sub_table_seats, hempty]
  | succ m ih =>
    intro t h f₁ f₂ h₁ h₂
    obtain ⟨g₁, rfl⟩ : ∃ g, f₁ = g + 1 := ⟨f₁ - 1, by omega⟩
    obtain ⟨g₂, rfl⟩ : ∃ g, f₂ = g + 1 := ⟨f₂ - 1, by omega⟩
    simp only [get_sub_table_seats]
    cases hempty : (sub_tables s t.id).isEmpty with
    | true => simp
    | false =>
      simp only [Bool.false_eq_true, if_false]
      exact foldl_union_congr
        (fun st hst => ih st (h st hst) g₁ g₂ (by omega) (by omega)) _

/-- On an acyclic state, every table's downward sub-table recursion is
exhausted within `s.tables.length` levels. -/
theorem downBound_of_acyclic {s : State} {rank : Nat → Nat}
    (hrank : rank_ok s rank = true) :
    ∀ (k : Nat) (t : Table), t ∈ s.tables →
      s.tables.length ≤ rank t.id + k + 1 → DownBound s k t := by
  intro k
  induction k with
  | zero =>
    intro t hmem hb
    rw [DownBound]
    rw [List.eq_nil_iff_forall_not_mem]
    intro st hst
    rw [sub_tables, List.mem_filter] at hst
    have hstmem := hst.1
    have hedge : st.container_table = some t.id := by simpa using hst.2
    have h1 := rank_ok_lt hrank st hstmem t.id hedge
    have h2 := rank_ok_bound hrank st hstmem
    omega
  | succ m ih =>
    intro t hmem hb st hst
    rw [sub_tables, List.mem_filter] at hst
    have hstmem := hst.1
    have hedge : st.container_table = some t.id := by simpa using hst.2
    have h1 := rank_ok_lt hrank st hstmem t.id hedge
    exact ih st hstmem (by omega)

/-- Claim C2 as stated is false: the effective seat set of a root table is
NOT in general the union of its own seats and the effective seat sets of its
direct sub-tables, because the effective seat set of a sub-table that itself
has sub-tables omits the deeper seats.  Witnessed by a three-level hierarchy
0 ← 1 ← 2 with one seat per table. -/
def stB : State :=
  ⟨[], [], [⟨0, 1, 1, none⟩, ⟨1, 2, 1, some 0⟩, ⟨2, 3, 1, some 1⟩],
    [⟨100, 0, 0⟩, ⟨101, 1, 0⟩, ⟨102, 2, 0⟩], [], [], [], [], []⟩

/-- Claim C2, counterexample: on `stB`, root table 0 has effective seats
{100, 101, 102}, but its own seats unioned with the effective seat set of
its single direct sub-table (table 1, whose effective set is just {101}
since it has a container) give only {100, 101}. -/
theorem C2_counterexample :
    (⟨0, 1, 1, none⟩ : Table).container_table = none ∧
    (⟨0, 1, 1, none⟩ : Table) ∈ stB.tables ∧
    effective_seats stB ⟨0, 1, 1, none⟩ ≠
      (seats_of_table stB 0).toFinset ∪
        (sub_tables stB 0).foldl (fun acc st => acc ∪ effective_seats stB st) ∅ := by
  refine ⟨rfl, by decide, ?_⟩
  decide

/-- Claim C2 (amended): for every table T with no container table, on an
acyclic state, the effective seat set of T equals the union of T's own seats
and the *recursively gathered* sub-table seat set of each direct sub-table S
(the seats of S together with those of all of S's transitive sub-tables;
this equals the effective seat set of S only when S has no sub-tables of
its own), and the union is idempotent. -/
theorem C2_effective_seats (s : State) (t : Table)
    (hacyc : TablesAcyclic s) (hmem : t ∈ s.tables)
    (hroot : t.container_table = none) :
    effective_seats s t =
      (seats_of_table s t.id).toFinset ∪
        (sub_tables s t.id).foldl
          (fun acc st => acc ∪ get_sub_table_seats s s.tables.length st) ∅ ∧
    effective_seats s t ∪ effective_seats s t = effective_seats s t := by
  obtain ⟨rank, hrank⟩ := hacyc
  refine ⟨?_, Finset.union_self _⟩
  obtain ⟨m, hm⟩ : ∃ m, s.tables.length = m + 1 := by
    have : 0 < s.tables.length := List.length_pos_of_mem hmem
    exact ⟨s.tables.length - 1, by omega⟩
  have hdb : DownBound s (m + 1) t := by
    rw [← hm]
    exact downBound_of_acyclic hrank s.tables.length t hmem (by omega)
  rw [effective_seats, if_pos hroot, hm]
  conv_lhs => simp only [get_sub_table_seats]
  cases hempty : (sub_tables s t.id).isEmpty with
  | true =>
    simp only [if_true]
    rw [List.isEmpty_iff] at hempty
    simp [hempty]
  | false =>
    simp only [Bool.false_eq_true, if_false]
    rw [foldl_union_init]
    congr 1
    refine foldl_union_congr (fun st hst => ?_) _
    have hst' : DownBound s m st := by
      rw [DownBound] at hdb
      exact hdb st hst
    exact get_sub_table_seats_stable m st hst' m (m + 1) (by omega) (by omega)

/-- Concrete instantiation of `C2_effective_seats` on `stB`. -/
theorem C2_effective_seats_witness :
    TablesAcyclic stB ∧ (⟨0, 1, 1, none⟩ : Table) ∈ stB.tables ∧
      (effective_seats stB ⟨0, 1, 1, none⟩ =
        (seats_of_table stB 0).toFinset ∪
          (sub_tables stB 0).foldl
            (fun acc st => acc ∪ get_sub_table_seats stB stB.tables.length st) ∅ ∧
      effective_seats stB ⟨0, 1, 1, none⟩ ∪ effective_seats stB ⟨0, 1, 1, none⟩ =
        effective_seats stB ⟨0, 1, 1, none⟩) :=
  ⟨⟨fun i => i, by decide⟩, by decide,
    C2_effective_seats stB ⟨0, 1, 1, none⟩ ⟨fun i => i, by decide⟩ (by decide) rfl⟩

/-- Fuel-indexed embedding of the inner helper
`check_container_table_not_in_sub_tables` of `Table.clean`: `true` when the
candidate `container_table` does not occur anywhere in the descendant
sub-table tree of `table`. -/
def check_container_table_not_in_sub_tables (s : State) :
    Nat → Table → Table → Bool
  | 0, _, _ => true
  | fuel + 1, t, c =>
    if (sub_tables s t.id).isEmpty then true
    else if (sub_tables s t.id).any (fun st => st.id == c.id) then false
    else (sub_tables s t.id).all fun st =>
      check_container_table_not_in_sub_tables s fuel st c

/-- Embedding of `Table.clean`: self-containment check, same-restaurant
check, then (only for already-persisted rows, `self.pk`) the descendant
cycle check. -/
def table_clean (s : State) (t : Table) (has_pk : Bool) : Except VError Unit :=
  match t.container_table with
  | none => Except.ok ()
  | some cid =>
    if cid == t.id then
      Except.error ⟨some "container_table",
        "The parent container table cannot be this own table.", ErrCode.invalid⟩
    else
      match find_table s cid with
      | none => Except.ok ()
      | some c =>
        if c.restaurant != t.restaurant then
          Except.error ⟨some "container_table",
            "Only tables at the same restaurant can be used as a parent container table.",
            ErrCode.invalid⟩
        else if has_pk &&
            !(check_container_table_not_in_sub_tables s (s.tables.length + 1) t c) then
          Except.error ⟨some "container_table",
            "The parent container table cannot be a sub-table of this table.",
            ErrCode.invalid⟩
        else Except.ok ()

/-- The chain of ancestor ids obtained by following `container_table` links
upward from the table with the given id. -/
def up_chain (s : State) : Nat → Nat → List Nat
  | 0, _ => []
  | fuel + 1, tid =>
    match find_table s tid with
    | none => []
    | some t =>
      match t.container_table with
      | none => []
      | some cid => cid :: up_chain s fuel cid

/-- `c` is a transitive sub-table of `t` (at any depth): following
`container_table` links upward from `c` reaches `t`. -/
def IsTransSubTable (s : State) (c t : Table) : Prop :=
  t.id ∈ up_chain s s.tables.length c.id

instance (s : State) (c t : Table) : Decidable (IsTransSubTable s c t) :=
  inferInstanceAs (Decidable (t.id ∈ up_chain s s.tables.length c.id))

/-- A descendant path of length at most `n + 1` from `x` down to `c` through
the `sub_tables` relation. -/
def HasPath (s : State) : Nat → Table → Table → Prop
  | 0, x, c => c ∈ sub_tables s x.id
  | n + 1, x, c => c ∈ sub_tables s x.id ∨ ∃ y ∈ sub_tables s x.id, HasPath s n y c

theorem find_table_self {s : State} {c : Table}
    (hids : (s.tables.map Table.id).Nodup) (hmem : c ∈ s.tables) :
    find_table s c.id = some c := by
  cases hf : find_table s c.id with
  | none =>
    have : (find_table s c.id).isSome := find_table_isSome_of_mem ⟨c, hmem, rfl⟩
    rw [hf] at this
    simp at this
  | some c' =>
    have ⟨hmem', hid⟩ := find_table_eq_some hf
    have := List.inj_on_of_nodup_map hids hmem' hmem hid
    rw [this]

theorem mem_sub_tables {s : State} {st : Table} {tid : Nat} :
    st ∈ sub_tables s tid ↔ st ∈ s.tables ∧ st.container_table = some tid := by
  rw [sub_tables, List.mem_filter]
  simp

theorem sub_tables_not_empty {s : State} {st : Table} {tid : Nat}
    (h : st ∈ sub_tables s tid) : (sub_tables s tid).isEmpty = false := by
  cases he : (sub_tables s tid).isEmpty with
  | false => rfl
  | true =>
    rw [List.isEmpty_iff] at he
    rw [he] at h
    simp at h

/-- A direct sub-table containing the candidate makes the check fail. -/
theorem check_fails_direct {s : State} {x c : Table}
    (h : c ∈ sub_tables s x.id) :
    ∀ gas, 1 ≤ gas → check_container_table_not_in_sub_tables s gas x c = false := by
  intro gas hgas
  obtain ⟨g, rfl⟩ : ∃ g, gas = g + 1 := ⟨gas - 1, by omega⟩
  rw [check_container_table_not_in_sub_tables]
  rw [sub_tables_not_empty h]
  have hany : ((sub_tables s x.id).any fun st => st.id == c.id) = true := by
    rw [List.any_eq_true]
    exact ⟨c, h, by simp⟩
  simp [hany]

/-- The check fails at a node if it fails at one of its direct sub-tables. -/
theorem check_fails_step {s : State} {x y c : Table}
    (hy : y ∈ sub_tables s x.id) {gas : Nat}
    (h : check_container_table_not_in_sub_tables s gas y c = false) :
    check_container_table_not_in_sub_tables s (gas + 1) x c = false := by
  rw [check_container_table_not_in_sub_tables]
  rw [sub_tables_not_empty hy]
  cases hany : ((sub_tables s x.id).any fun st => st.id == c.id) with
  | true => simp
  | false =>
    simp only [Bool.false_eq_true, if_false]
    cases hall : ((sub_tables s x.id).all fun st =>
        check_container_table_not_in_sub_tables s gas st c) with
    | false => rfl
    | true =>
      rw [List.all_eq_true] at hall
      rw [hall y hy] at h
      simp at h

/-- A descendant path from `x` to `c` makes the downward check find `c`. -/
theorem check_fails_of_hasPath {s : State} :
    ∀ (n : Nat) (x c : Table), HasPath s n x c →
      ∀ gas, n + 1 ≤ gas →
        check_container_table_not_in_sub_tables s gas x c = false := by
  intro n
  induction n with
  | zero =>
    intro x c h gas hgas
    rw [HasPath] at h
    exact check_fails_direct h gas hgas
  | succ m ih =>
    intro x c h gas hgas
    rw [HasPath] at h
    rcases h with h | ⟨y, hy, hp⟩
    · exact check_fails_direct h gas (by omega)
    · obtain ⟨g, rfl⟩ : ∃ g, gas = g + 1 := ⟨gas - 1, by omega⟩
      exact check_fails_step hy (ih y c hp g (by omega))

/-- Extending a descendant path by one more sub-table step at the bottom. -/
theorem hasPath_snoc {s : State} :
    ∀ (n : Nat) (x y c : Table), HasPath s n x y → c ∈ sub_tables s y.id →
      HasPath s (n + 1) x c := by
  intro n
  induction n with
  | zero =>
    intro x y c hxy hc
    rw [HasPath] at hxy
    exact Or.inr ⟨y, hxy, hc⟩
  | succ m ih =>
    intro x y c hxy hc
    rw [HasPath] at hxy
    rcases hxy with h | ⟨z, hz, hp⟩
    · exact Or.inr ⟨y, h, Or.inl hc⟩
    · exact Or.inr ⟨z, hz, ih z y c hp hc⟩

/-- Membership of `t0.id` in the upward ancestor chain of `c` yields a
downward descendant path from `t0` to `c` (of the same length bound). -/
theorem hasPath_of_up_chain {s : State}
    (hids : (s.tables.map Table.id).Nodup) (hclosed : tables_closed s = true) :
    ∀ (n : Nat) (c : Table), c ∈ s.tables →
      ∀ t0 : Table, t0.id ∈ up_chain s n c.id → HasPath s n t0 c := by
  intro n
  induction n with
  | zero => intro c _ t0 h; simp [up_chain] at h
  | succ m ih =>
    intro c hc t0 h
    rw [up_chain] at h
    cases hct : c.container_table with
    | none => simp only [find_table_self hids hc, hct] at h; simp at h
    | some p =>
      simp only [find_table_self hids hc, hct, List.mem_cons] at h
      have hsub_of : ∀ q : Table, q.id = p → c ∈ sub_tables s q.id := by
        intro q hq
        rw [mem_sub_tables]
        exact ⟨hc, by rw [hq, hct]⟩
      rcases h with h | h
      · rw [HasPath] at *
        exact Or.inl (hsub_of t0 h)
      · obtain ⟨pt, hptmem, hptid⟩ := tables_closed_spec hclosed c hc p hct
        have hpt : t0.id ∈ up_chain s m pt.id := by rw [hptid]; exact h
        have hpath := ih pt hptmem t0 hpt
        exact hasPath_snoc m t0 pt c hpath (hsub_of pt hptid)

/-- Every id in the upward ancestor chain has strictly smaller rank. -/
theorem up_chain_rank {s : State} {rank : Nat → Nat}
    (hrank : rank_ok s rank = true)
    (hids : (s.tables.map Table.id).Nodup) (hclosed : tables_closed s = true) :
    ∀ (n : Nat) (c : Table), c ∈ s.tables →
      ∀ x ∈ up_chain s n c.id, rank x < rank c.id := by
  intro n
  induction n with
  | zero => intro c _ x h; simp [up_chain] at h
  | succ m ih =>
    intro c hc x h
    rw [up_chain] at h
    cases hct : c.container_table with
    | none => simp only [find_table_self hids hc, hct] at h; simp at h
    | some p =>
      simp only [find_table_self hids hc, hct, List.mem_cons] at h
      have hp : rank p < rank c.id := rank_ok_lt hrank c hc p hct
      rcases h with rfl | h
      · exact hp
      · obtain ⟨pt, hptmem, hptid⟩ := tables_closed_spec hclosed c hc p hct
        have hx : x ∈ up_chain s m pt.id := by rw [hptid]; exact h
        have := ih pt hptmem x hx
        rw [hptid] at this
        omega

/-- Claim C7: assigning as T's container table a table `c` that is already a
transitive sub-table of T (at any depth) always fails with the
"cannot be a sub-table" validation error on the `container_table` field.
Stated on closed acyclic states with distinct primary keys; `c` is at the
same restaurant (sub-tables always are) and T is persisted (it has
sub-tables, so it has a primary key). -/
theorem C7_container_cycle_rejected (s : State) (t c : Table)
    (hacyc : TablesAcyclic s) (hclosed : tables_closed s = true)
    (hids : (s.tables.map Table.id).Nodup)
    (hc : c ∈ s.tables)
    (htrans : IsTransSubTable s c t)
    (hrest : c.restaurant = t.restaurant) :
    table_clean s { t with container_table := some c.id } true =
      Except.error ⟨some "container_table",
        "The parent container table cannot be a sub-table of this table.",
        ErrCode.invalid⟩ := by
  obtain ⟨rank, hrank⟩ := hacyc
  have hne : c.id ≠ t.id := by
    intro heq
    have := up_chain_rank hrank hids hclosed s.tables.length c hc t.id htrans
    rw [heq] at this
    omega
  have hpath : HasPath s s.tables.length { t with container_table := some c.id } c := by
    exact hasPath_of_up_chain hids hclosed s.tables.length c hc _ htrans
  have hcheck := check_fails_of_hasPath s.tables.length _ c hpath
    (s.tables.length + 1) (by omega)
  rw [table_clean]
  simp only
  rw [if_neg (by simpa using hne)]
  rw [find_table_self hids hc]
  simp only [hrest]
  rw [if_neg (by simp)]
  rw [hcheck]
  simp

/-- A three-level hierarchy 0 ← 1 ← 2 at restaurant 1 used to instantiate
the cycle-rejection theorem. -/
def stC : State :=
  ⟨[], [], [⟨0, 1, 1, none⟩, ⟨1, 2, 1, some 0⟩, ⟨2, 3, 1, some 1⟩],
    [], [], [], [], [], []⟩

/-- Concrete instantiation of `C7_container_cycle_rejected` on `stC`:
making the depth-2 descendant (table 2) the container of root table 0 is
rejected. -/
theorem C7_container_cycle_rejected_witness :
    TablesAcyclic stC ∧ tables_closed stC = true ∧
      (stC.tables.map Table.id).Nodup ∧
      (⟨2, 3, 1, some 1⟩ : Table) ∈ stC.tables ∧
      IsTransSubTable stC ⟨2, 3, 1, some 1⟩ ⟨0, 1, 1, none⟩ ∧
      table_clean stC { (⟨0, 1, 1, none⟩ : Table) with container_table := some 2 } true =
        Except.error ⟨some "container_table",
          "The parent container table cannot be a sub-table of this table.",
          ErrCode.invalid⟩ :=
  ⟨⟨fun i => i, by decide⟩, by decide, by decide, by decide, by decide,
    C7_container_cycle_rejected stC ⟨0, 1, 1, none⟩ ⟨2, 3, 1, some 1⟩
      ⟨fun i => i, by decide⟩ (by decide) (by decide) (by decide)
      (by decide) rfl⟩

/-- Claim C8: saving a table whose `container_table` is the table itself
always fails with the "cannot be this own table" validation error, code
`invalid`, on the `container_table` field. -/
theorem C8_container_self_rejected (s : State) (t : Table) (has_pk : Bool)
    (hself : t.container_table = some t.id) :
    table_clean s t has_pk =
      Except.error ⟨some "container_table",
        "The parent container table cannot be this own table.", ErrCode.invalid⟩ := by
  rw [table_clean, hself]
  simp

/-- Concrete instantiation of `C8_container_self_rejected`: a table that is
its own container is rejected on any state. -/
theorem C8_container_self_rejected_witness :
    (⟨5, 1, 1, some 5⟩ : Table).container_table = some 5 ∧
      table_clean stC ⟨5, 1, 1, some 5⟩ true =
        Except.error ⟨some "container_table",
          "The parent container table cannot be this own table.", ErrCode.invalid⟩ :=
  ⟨rfl, C8_container_self_rejected stC ⟨5, 1, 1, some 5⟩ true rfl⟩

/-- The seat-bookings attached to a booking (the `seat_bookings` reverse
foreign-key manager on `Booking`). -/
def booking_seat_bookings (s : State) (bid : Nat) : List SeatBooking :=
  s.seatBookings.filter (fun sb => sb.booking == bid)

/-- The table ids reached through `seat_bookings.values_list("seat__table__pk")`
for a booking (rows whose joins do not resolve are dropped, as in SQL). -/
def booking_table_ids (s : State) (bid : Nat) : List Nat :=
  (booking_seat_bookings s bid).filterMap (fun sb => seat_table s sb.seat)

/-- The `Booking.tables` per-instance manager: tables whose pk is among the
booking's seat table ids. -/
def booking_tables (s : State) (bid : Nat) : List Table :=
  s.tables.filter (fun t => (booking_table_ids s bid).contains t.id)

/-- The derived `Booking.restaurant` property: `none` when the booking has
no associated tables, else the restaurant of the first associated table. -/
def booking_restaurant (s : State) (bid : Nat) : Option Nat :=
  (booking_tables s bid).head?.map (fun t => t.restaurant)

/-- First condition of `SeatBooking.clean` (restaurant consistency): fires
when the booking's derived restaurant exists, this row would be at least the
booking's second seat-booking (the clean-time count adds one for a row that
is not yet persisted), and the seat's table is at a different restaurant.
`seat_id` and `booking_id` are non-null foreign keys; a dangling reference
leaves the condition inactive. -/
def sb_restaurant_conflict (s : State) (sb : SeatBooking) : Bool :=
  match booking_restaurant s sb.booking with
  | none => false
  | some r =>
    decide (2 ≤ (booking_seat_bookings s sb.booking).length
        + (if sb.pk.isNone then 1 else 0)) &&
    (match seat_restaurant s sb.seat with
     | none => false
     | some r2 => r2 != r)

/-- Second condition of `SeatBooking.clean` (time overlap): some persisted
seat-booking of a different booking, on a seat of the same table, whose
booking window is excluded by neither `start__gte=end` nor `end__lte=start`. -/
def sb_overlap_conflict (s : State) (sb : SeatBooking) : Bool :=
  match find_booking s sb.booking, seat_table s sb.seat with
  | some b, some tid =>
    s.seatBookings.any fun sb2 =>
      sb2.booking != sb.booking &&
      (seat_table s sb2.seat == some tid) &&
      (match find_booking s sb2.booking with
       | none => false
       | some b2 => !(decide (b.end_ ≤ b2.start)) && !(decide (b2.end_ ≤ b.start)))
  | _, _ => false

/-- Embedding of `SeatBooking.clean`: the restaurant-consistency check, then
the table/time-overlap check. -/
def seat_booking_clean (s : State) (sb : SeatBooking) : Except VError Unit :=
  if sb_restaurant_conflict s sb then
    Except.error ⟨none,
      "The tables within this Booking must all be at the same restaurant.",
      ErrCode.invalid⟩
  else if sb_overlap_conflict s sb then
    Except.error ⟨some "seat",
      "A booking for this seat\x27s table already exists within these start & end points.",
      ErrCode.unique⟩
  else Except.ok ()

/-- `sb_overlap_conflict` holds exactly when an overlapping seat-booking of
a different booking exists on the same table, with NOT-separated windows. -/
theorem sb_overlap_conflict_iff (s : State) (sb : SeatBooking) (b : Booking) (tid : Nat)
    (hb : find_booking s sb.booking = some b)
    (htid : seat_table s sb.seat = some tid) :
    sb_overlap_conflict s sb = true ↔
      ∃ sb2 ∈ s.seatBookings, ∃ b2 : Booking,
        sb2.booking ≠ sb.booking ∧
        seat_table s sb2.seat = some tid ∧
        find_booking s sb2.booking = some b2 ∧
        ¬(b2.end_ ≤ b.start ∨ b2.start ≥ b.end_) := by
  rw [sb_overlap_conflict]
  simp only [hb, htid]
  rw [List.any_eq_true]
  constructor
  · rintro ⟨sb2, hmem, hin⟩
    rw [Bool.and_eq_true, Bool.and_eq_true] at hin
    obtain ⟨⟨h1, h2⟩, h3⟩ := hin
    cases hfb : find_booking s sb2.booking with
    | none => rw [hfb] at h3; simp at h3
    | some b2 =>
      rw [hfb, Bool.and_eq_true] at h3
      refine ⟨sb2, hmem, b2, by simpa using h1, by simpa using h2, hfb, ?_⟩
      have hx1 : ¬(b.end_ ≤ b2.start) := by simpa using h3.1
      have hx2 : ¬(b2.end_ ≤ b.start) := by simpa using h3.2
      rintro (h | h)
      · exact hx2 h
      · exact hx1 h
  · rintro ⟨sb2, hmem, b2, hne, hst, hfb, hnov⟩
    push_neg at hnov
    refine ⟨sb2, hmem, ?_⟩
    rw [Bool.and_eq_true, Bool.and_eq_true, hfb, Bool.and_eq_true]
    refine ⟨⟨by simpa using hne, by simpa using hst⟩, ?_, ?_⟩
    · simpa using not_le_of_lt hnov.2
    · simpa using not_le_of_lt hnov.1

/-- Claim C1: on a state where the restaurant-consistency condition is
inactive, creating a seat-booking fails with the overlap error — code
`unique`, attached to the `seat` field — if and only if some seat-booking of
a different booking exists on a seat of the same table whose window
[start2, end2) satisfies NOT (end2 ≤ start OR start2 ≥ end); in particular,
when every other same-table booking merely touches at a boundary, creation
succeeds. -/
theorem C1_overlap_error_iff (s : State) (sb : SeatBooking) (b : Booking) (tid : Nat)
    (hb : find_booking s sb.booking = some b)
    (htid : seat_table s sb.seat = some tid)
    (hrc : sb_restaurant_conflict s sb = false) :
    (seat_booking_clean s sb =
        Except.error ⟨some "seat",
          "A booking for this seat\x27s table already exists within these start & end points.",
          ErrCode.unique⟩ ↔
      ∃ sb2 ∈ s.seatBookings, ∃ b2 : Booking,
        sb2.booking ≠ sb.booking ∧
        seat_table s sb2.seat = some tid ∧
        find_booking s sb2.booking = some b2 ∧
        ¬(b2.end_ ≤ b.start ∨ b2.start ≥ b.end_)) ∧
    ((∀ sb2 ∈ s.seatBookings, ∀ b2 : Booking,
        sb2.booking ≠ sb.booking → seat_table s sb2.seat = some tid →
        find_booking s sb2.booking = some b2 →
        b2.end_ ≤ b.start ∨ b2.start ≥ b.end_) →
      seat_booking_clean s sb = Except.ok ()) := by
  have hiff := sb_overlap_conflict_iff s sb b tid hb htid
  cases hov : sb_overlap_conflict s sb with
  | true =>
    have herr : seat_booking_clean s sb =
        Except.error ⟨some "seat",
          "A booking for this seat\x27s table already exists within these start & end points.",
          ErrCode.unique⟩ := by
      rw [seat_booking_clean]
      simp [hrc, hov]
    refine ⟨?_, ?_⟩
    · rw [herr]
      exact ⟨fun _ => hiff.mp hov, fun _ => rfl⟩
    · intro hsep
      exfalso
      obtain ⟨sb2, hmem, b2, hne, hst, hfb, hnov⟩ := hiff.mp hov
      exact hnov (hsep sb2 hmem b2 hne hst hfb)
  | false =>
    have hok : seat_booking_clean s sb = Except.ok () := by
      rw [seat_booking_clean]
      simp [hrc, hov]
    refine ⟨?_, fun _ => hok⟩
    rw [hok]
    constructor
    · intro h; cases h
    · intro hex
      have := hiff.mpr hex
      rw [hov] at this
      cases this

/-- State for the overlap-claim witness: one table (id 10, restaurant 1)
with seats 20 and 21; booking 1 ([100,110)) already holds seat 20; the new
unsaved seat-booking is for booking 2 ([105,115)) on seat 21. -/
def stD : State :=
  ⟨[], [⟨1, "A"⟩], [⟨10, 1, 1, none⟩], [⟨20, 10, 0⟩, ⟨21, 10, 1⟩],
    [⟨1, 100, 110⟩, ⟨2, 105, 115⟩], [⟨some 1, 20, 1, 0⟩], [], [], []⟩

/-- Concrete instantiation of `C1_overlap_error_iff` on `stD`. -/
theorem C1_overlap_error_iff_witness :
    find_booking stD 2 = some ⟨2, 105, 115⟩ ∧
    seat_table stD 21 = some 10 ∧
    sb_restaurant_conflict stD ⟨none, 21, 2, 1⟩ = false ∧
    ((seat_booking_clean stD ⟨none, 21, 2, 1⟩ =
        Except.error ⟨some "seat",
          "A booking for this seat\x27s table already exists within these start & end points.",
          ErrCode.unique⟩ ↔
      ∃ sb2 ∈ stD.seatBookings, ∃ b2 : Booking,
        sb2.booking ≠ (⟨none, 21, 2, 1⟩ : SeatBooking).booking ∧
        seat_table stD sb2.seat = some 10 ∧
        find_booking stD sb2.booking = some b2 ∧
        ¬(b2.end_ ≤ (105 : Int) ∨ b2.start ≥ (115 : Int))) ∧
    ((∀ sb2 ∈ stD.seatBookings, ∀ b2 : Booking,
        sb2.booking ≠ (⟨none, 21, 2, 1⟩ : SeatBooking).booking →
        seat_table stD sb2.seat = some 10 →
        find_booking stD sb2.booking = some b2 →
        b2.end_ ≤ (105 : Int) ∨ b2.start ≥ (115 : Int)) →
      seat_booking_clean stD ⟨none, 21, 2, 1⟩ = Except.ok ())) :=
  ⟨by decide, by decide, by decide,
    C1_overlap_error_iff stD ⟨none, 21, 2, 1⟩ ⟨2, 105, 115⟩ 10
      (by decide) (by decide) (by decide)⟩

/-- Claim C9: a booking with no seat-bookings has derived restaurant `none`
(no error is raised); a booking with at least one seat-booking, all of whose
seats resolve to existing tables, has as derived restaurant the restaurant
of one of its associated tables. -/
theorem C9_booking_restaurant (s : State) (bid : Nat) :
    (booking_seat_bookings s bid = [] → booking_restaurant s bid = none) ∧
    (booking_seat_bookings s bid ≠ [] →
      (∀ sb ∈ booking_seat_bookings s bid,
        ∃ tid, seat_table s sb.seat = some tid ∧ ∃ tb ∈ s.tables, tb.id = tid) →
      ∃ tb ∈ booking_tables s bid, booking_restaurant s bid = some tb.restaurant) := by
  constructor
  · intro h
    have hids : booking_table_ids s bid = [] := by
      rw [booking_table_ids, h]
      rfl
    rw [booking_restaurant, booking_tables, hids]
    simp
  · intro hne hres
    obtain ⟨sb0, hsb0⟩ := List.exists_mem_of_ne_nil _ hne
    obtain ⟨tid0, htid0, tb0, htb0mem, htb0id⟩ := hres sb0 hsb0
    have hin : tid0 ∈ booking_table_ids s bid := by
      rw [booking_table_ids, List.mem_filterMap]
      exact ⟨sb0, hsb0, htid0⟩
    have htb0 : tb0 ∈ booking_tables s bid := by
      rw [booking_tables, List.mem_filter]
      refine ⟨htb0mem, ?_⟩
      rw [htb0id]
      exact List.elem_eq_true_of_mem hin
    cases hbt : booking_tables s bid with
    | nil => rw [hbt] at htb0; cases htb0
    | cons t0 rest =>
      refine ⟨t0, List.mem_cons_self t0 rest, ?_⟩
      rw [booking_restaurant, hbt]
      rfl

/-- Concrete instantiation of `C9_booking_restaurant` on `stD`: booking 2
has no seat-bookings (restaurant `none`); booking 1 has one, giving the
restaurant of table 10. -/
theorem C9_booking_restaurant_witness :
    booking_restaurant stD 2 = none ∧
      ∃ tb ∈ booking_tables stD 1, booking_restaurant stD 1 = some tb.restaurant :=
  ⟨(C9_booking_restaurant stD 2).1 (by decide),
    (C9_booking_restaurant stD 1).2 (by decide) (by decide)⟩

/-- The invariant of claim C4: all seat-bookings of each persisted booking
have their seats at one restaurant. -/
def same_restaurant_inv (s : State) : Prop :=
  ∀ b ∈ s.bookings, ∀ sb1 ∈ booking_seat_bookings s b.id,
    ∀ sb2 ∈ booking_seat_bookings s b.id,
      seat_restaurant s sb1.seat = seat_restaurant s sb2.seat

instance (s : State) : Decidable (same_restaurant_inv s) :=
  inferInstanceAs (Decidable (∀ b ∈ s.bookings,
    ∀ sb1 ∈ booking_seat_bookings s b.id,
      ∀ sb2 ∈ booking_seat_bookings s b.id,
        seat_restaurant s sb1.seat = seat_restaurant s sb2.seat))

/-- Every persisted seat-booking resolves through its seat to an existing
table (foreign-key integrity of the persisted rows). -/
def seat_bookings_resolved (s : State) : Bool :=
  s.seatBookings.all fun sb => (seat_restaurant s sb.seat).isSome

/-- `Custom_Base_Model.save` for a new seat-booking: run `full_clean`, then
insert the row with a fresh primary key. -/
def seat_booking_create (s : State) (sb : SeatBooking) (fresh : Nat) :
    Except VError State :=
  match seat_booking_clean s sb with
  | Except.error e => Except.error e
  | Except.ok _ =>
    Except.ok { s with
      seatBookings := s.seatBookings ++ [{ sb with pk := some fresh }] }

/-- `Custom_Base_Model.save` for a persisted seat-booking: run `full_clean`,
then overwrite the row carrying the same primary key. -/
def seat_booking_update (s : State) (sb : SeatBooking) : Except VError State :=
  match seat_booking_clean s sb with
  | Except.error e => Except.error e
  | Except.ok _ =>
    Except.ok { s with
      seatBookings := s.seatBookings.map (fun x => if x.pk == sb.pk then sb else x) }

theorem seat_bookings_resolved_spec {s : State}
    (h : seat_bookings_resolved s = true) :
    ∀ sb ∈ s.seatBookings, (seat_restaurant s sb.seat).isSome = true := by
  intro sb hsb
  rw [seat_bookings_resolved, List.all_eq_true] at h
  exact h sb hsb

theorem booking_sbs_subset {s : State} {bid : Nat} {sb : SeatBooking}
    (h : sb ∈ booking_seat_bookings s bid) :
    sb ∈ s.seatBookings ∧ sb.booking = bid := by
  rw [booking_seat_bookings, List.mem_filter] at h
  exact ⟨h.1, by simpa using h.2⟩

theorem mem_booking_sbs {s : State} {bid : Nat} {sb : SeatBooking}
    (h1 : sb ∈ s.seatBookings) (h2 : sb.booking = bid) :
    sb ∈ booking_seat_bookings s bid := by
  rw [booking_seat_bookings, List.mem_filter]
  exact ⟨h1, by simp [h2]⟩

/-- On a resolved state satisfying the invariant, a booking with at least
one seat-booking has a derived restaurant, and it is the restaurant of every
seat attached to the booking. -/
theorem booking_restaurant_common (s : State)
    (hids : (s.tables.map Table.id).Nodup)
    (hres : seat_bookings_resolved s = true)
    (hinv : same_restaurant_inv s)
    {b : Booking} (hb : b ∈ s.bookings)
    (hne : booking_seat_bookings s b.id ≠ []) :
    ∃ r0, booking_restaurant s b.id = some r0 ∧
      ∀ sb' ∈ booking_seat_bookings s b.id,
        seat_restaurant s sb'.seat = some r0 := by
  obtain ⟨sbw, hsbw⟩ := List.exists_mem_of_ne_nil _ hne
  have hsbw' : sbw ∈ s.seatBookings := (booking_sbs_subset hsbw).1
  have hsome := seat_bookings_resolved_spec hres sbw hsbw'
  cases hst : seat_table s sbw.seat with
  | none => rw [seat_restaurant, hst] at hsome; simp at hsome
  | some tidw =>
    cases hf : find_table s tidw with
    | none =>
      simp only [seat_restaurant, hst, hf] at hsome
      simp at hsome
    | some tw =>
      have ⟨htwmem, htwid⟩ := find_table_eq_some hf
      have hin : tidw ∈ booking_table_ids s b.id := by
        rw [booking_table_ids, List.mem_filterMap]
        exact ⟨sbw, hsbw, hst⟩
      have htw : tw ∈ booking_tables s b.id := by
        rw [booking_tables, List.mem_filter]
        exact ⟨htwmem, by rw [htwid]; exact List.elem_eq_true_of_mem hin⟩
      cases hbt : booking_tables s b.id with
      | nil => rw [hbt] at htw; cases htw
      | cons t0 rest =>
        have ht0 : t0 ∈ booking_tables s b.id := by
          rw [hbt]; exact List.mem_cons_self t0 rest
        rw [booking_tables, List.mem_filter] at ht0
        obtain ⟨ht0mem, ht0c⟩ := ht0
        have ht0in : t0.id ∈ booking_table_ids s b.id :=
          List.mem_of_elem_eq_true ht0c
        rw [booking_table_ids, List.mem_filterMap] at ht0in
        obtain ⟨sb0, hsb0, hsb0t⟩ := ht0in
        have hsr0 : seat_restaurant s sb0.seat = some t0.restaurant := by
          simp only [seat_restaurant, hsb0t, find_table_self hids ht0mem,
            Option.map_some']
        refine ⟨t0.restaurant, ?_, ?_⟩
        · rw [booking_restaurant, hbt]; rfl
        · intro sb' hsb'
          rw [hinv b hb sb' hsb' sb0 hsb0, hsr0]

theorem clean_ok_iff {s : State} {sb : SeatBooking} :
    seat_booking_clean s sb = Except.ok () ↔
      sb_restaurant_conflict s sb = false ∧ sb_overlap_conflict s sb = false := by
  rw [seat_booking_clean]
  cases h1 : sb_restaurant_conflict s sb <;>
    cases h2 : sb_overlap_conflict s sb <;> simp

/-- When the restaurant-consistency condition does not fire although the
derived restaurant exists and the clean-time count reaches two, the seat's
restaurant must agree with the derived restaurant. -/
theorem conflict_false_same_restaurant {s : State} {sb : SeatBooking} {r0 rn : Nat}
    (hok : sb_restaurant_conflict s sb = false)
    (hbr : booking_restaurant s sb.booking = some r0)
    (hsr : seat_restaurant s sb.seat = some rn)
    (hcnt : 2 ≤ (booking_seat_bookings s sb.booking).length
        + (if sb.pk.isNone then 1 else 0)) :
    rn = r0 := by
  simp only [sb_restaurant_conflict, hbr, hsr] at hok
  have hd : decide (2 ≤ (booking_seat_bookings s sb.booking).length
      + (if sb.pk.isNone then 1 else 0)) = true := decide_eq_true hcnt
  rw [hd, Bool.true_and] at hok
  by_contra hne'
  rw [bne_iff_ne.mpr hne'] at hok
  simp at hok

/-- A would-be second seat-booking at a different restaurant than the
booking's derived restaurant is rejected at create time. -/
theorem create_mismatch_rejected (s : State) (sb : SeatBooking) (r r2 : Nat)
    (hpk : sb.pk = none)
    (hbr : booking_restaurant s sb.booking = some r)
    (hne0 : booking_seat_bookings s sb.booking ≠ [])
    (hsr : seat_restaurant s sb.seat = some r2)
    (hner : r2 ≠ r) :
    seat_booking_clean s sb =
      Except.error ⟨none,
        "The tables within this Booking must all be at the same restaurant.",
        ErrCode.invalid⟩ := by
  have hconf : sb_restaurant_conflict s sb = true := by
    simp only [sb_restaurant_conflict, hbr, hsr]
    rw [Bool.and_eq_true]
    constructor
    · rw [decide_eq_true_eq, hpk]
      have : 0 < (booking_seat_bookings s sb.booking).length :=
        List.length_pos.mpr hne0
      simp only [Option.isNone_none, if_true]
      omega
    · exact bne_iff_ne.mpr hner
  rw [seat_booking_clean]
  simp [hconf]

theorem seat_booking_create_ok {s : State} {sb : SeatBooking} {fresh : Nat}
    {s' : State} (h : seat_booking_create s sb fresh = Except.ok s') :
    seat_booking_clean s sb = Except.ok () ∧
      s' = { s with
        seatBookings := s.seatBookings ++ [{ sb with pk := some fresh }] } := by
  rw [seat_booking_create] at h
  cases hc : seat_booking_clean s sb with
  | error e => rw [hc] at h; exact absurd h (by simp)
  | ok u =>
    cases u
    rw [hc] at h
    refine ⟨rfl, ?_⟩
    simpa using h.symm

theorem seat_booking_update_ok {s : State} {sb : SeatBooking} {s' : State}
    (h : seat_booking_update s sb = Except.ok s') :
    seat_booking_clean s sb = Except.ok () ∧
      s' = { s with
        seatBookings := s.seatBookings.map (fun x => if x.pk == sb.pk then sb else x) } := by
  rw [seat_booking_update] at h
  cases hc : seat_booking_clean s sb with
  | error e => rw [hc] at h; exact absurd h (by simp)
  | ok u =>
    cases u
    rw [hc] at h
    refine ⟨rfl, ?_⟩
    simpa using h.symm

/-- Creating a seat-booking that passes `clean` preserves the one-restaurant
invariant. -/
theorem create_preserves_inv (s : State) (sb : SeatBooking) (fresh : Nat)
    (hids : (s.tables.map Table.id).Nodup)
    (hres : seat_bookings_resolved s = true)
    (hinv : same_restaurant_inv s)
    (hnew : (seat_restaurant s sb.seat).isSome = true)
    (hpk : sb.pk = none)
    (hok : seat_booking_clean s sb = Except.ok ()) :
    same_restaurant_inv { s with
      seatBookings := s.seatBookings ++ [{ sb with pk := some fresh }] } := by
  intro b hb sb1 h1 sb2 h2
  have hmem : ∀ {x : SeatBooking},
      x ∈ booking_seat_bookings { s with
        seatBookings := s.seatBookings ++ [{ sb with pk := some fresh }] } b.id →
      x ∈ booking_seat_bookings s b.id ∨
        (x = { sb with pk := some fresh } ∧ sb.booking = b.id) := by
    intro x hx
    have hx' : x ∈ (s.seatBookings ++ [{ sb with pk := some fresh }]).filter
        (fun y : SeatBooking => y.booking == b.id) := hx
    rw [List.filter_append, List.mem_append] at hx'
    rcases hx' with hx' | hx'
    · exact Or.inl hx'
    · rw [List.mem_filter] at hx'
      have hxeq : x = { sb with pk := some fresh } := by
        have := hx'.1; simpa using this
      refine Or.inr ⟨hxeq, ?_⟩
      have := hx'.2
      rw [hxeq] at *
      simpa using this
  have key : ∀ x ∈ booking_seat_bookings s b.id, sb.booking = b.id →
      seat_restaurant s x.seat = seat_restaurant s sb.seat := by
    intro x hx hbb
    have hne : booking_seat_bookings s b.id ≠ [] := by
      intro hnil
      rw [hnil] at hx
      cases hx
    obtain ⟨r0, hbr, hall⟩ := booking_restaurant_common s hids hres hinv hb hne
    obtain ⟨rn, hrn⟩ := Option.isSome_iff_exists.mp hnew
    have hcnt : 2 ≤ (booking_seat_bookings s sb.booking).length
        + (if sb.pk.isNone then 1 else 0) := by
      rw [hbb, hpk]
      have : 0 < (booking_seat_bookings s b.id).length :=
        List.length_pos_of_mem hx
      simp only [Option.isNone_none, if_true]
      omega
    have hrcf : sb_restaurant_conflict s sb = false := (clean_ok_iff.mp hok).1
    have hr : rn = r0 :=
      conflict_false_same_restaurant hrcf (by rw [hbb]; exact hbr) hrn hcnt
    rw [hall x hx, hrn, hr]
  rcases hmem h1 with h1o | ⟨hx1, hbb⟩ <;> rcases hmem h2 with h2o | ⟨hx2, hbb2⟩
  · exact hinv b hb sb1 h1o sb2 h2o
  · show seat_restaurant s sb1.seat = seat_restaurant s sb2.seat
    rw [hx2]
    exact key sb1 h1o hbb2
  · show seat_restaurant s sb1.seat = seat_restaurant s sb2.seat
    rw [hx1]
    exact (key sb2 h2o hbb).symm
  · show seat_restaurant s sb1.seat = seat_restaurant s sb2.seat
    rw [hx1, hx2]

/-- Updating a seat-booking that stays attached to the same booking and
passes `clean` preserves the one-restaurant invariant. -/
theorem update_preserves_inv (s : State) (sb : SeatBooking) (i : Nat)
    (hids : (s.tables.map Table.id).Nodup)
    (hres : seat_bookings_resolved s = true)
    (hinv : same_restaurant_inv s)
    (hnew : (seat_restaurant s sb.seat).isSome = true)
    (hpk : sb.pk = some i)
    (hsame : ∀ x ∈ s.seatBookings, x.pk = some i → x.booking = sb.booking)
    (hok : seat_booking_clean s sb = Except.ok ()) :
    same_restaurant_inv { s with
      seatBookings := s.seatBookings.map (fun x => if x.pk == sb.pk then sb else x) } := by
  intro b hb sb1 h1 sb2 h2
  have hmem : ∀ {x : SeatBooking},
      x ∈ booking_seat_bookings { s with
        seatBookings := s.seatBookings.map (fun y => if y.pk == sb.pk then sb else y) } b.id →
      (x ∈ booking_seat_bookings s b.id ∧ x.pk ≠ sb.pk) ∨
        (x = sb ∧ sb.booking = b.id ∧
          ∃ y ∈ booking_seat_bookings s b.id, y.pk = some i) := by
    intro x hx
    have hx' : x ∈ ((s.seatBookings.map
        (fun y => if y.pk == sb.pk then sb else y)).filter
        (fun y : SeatBooking => y.booking == b.id)) := hx
    rw [List.mem_filter, List.mem_map] at hx'
    obtain ⟨⟨y, hy, hyx⟩, hxb⟩ := hx'
    cases hif : (y.pk == sb.pk) with
    | true =>
      rw [hif] at hyx
      simp only [if_true] at hyx
      have hxsb : x = sb := hyx.symm
      have hbb : sb.booking = b.id := by
        rw [hxsb] at hxb
        simpa using hxb
      have hypk : y.pk = some i := by
        have : y.pk = sb.pk := by simpa using hif
        rw [this, hpk]
      refine Or.inr ⟨hxsb, hbb, y, ?_, hypk⟩
      exact mem_booking_sbs hy (by rw [hsame y hy hypk, hbb])
    | false =>
      rw [hif] at hyx
      simp only [Bool.false_eq_true, if_false] at hyx
      subst hyx
      refine Or.inl ⟨mem_booking_sbs hy (by simpa using hxb), ?_⟩
      simpa using hif
  have key : ∀ x, x ∈ booking_seat_bookings s b.id → x.pk ≠ sb.pk →
      sb.booking = b.id → (∃ y ∈ booking_seat_bookings s b.id, y.pk = some i) →
      seat_restaurant s x.seat = seat_restaurant s sb.seat := by
    intro x hx hxpk hbb hex
    obtain ⟨y, hy, hypk⟩ := hex
    cases hl : booking_seat_bookings s b.id with
    | nil => rw [hl] at hx; cases hx
    | cons a tail =>
      cases tail with
      | nil =>
        exfalso
        rw [hl] at hx hy
        have hxa : x = a := by simpa using hx
        have hya : y = a := by simpa using hy
        apply hxpk
        rw [hxa, ← hya, hypk, hpk]
      | cons a2 rest =>
        have hne : booking_seat_bookings s b.id ≠ [] := by rw [hl]; simp
        obtain ⟨r0, hbr, hall⟩ :=
          booking_restaurant_common s hids hres hinv hb hne
        obtain ⟨rn, hrn⟩ := Option.isSome_iff_exists.mp hnew
        have hcnt : 2 ≤ (booking_seat_bookings s sb.booking).length
            + (if sb.pk.isNone then 1 else 0) := by
          rw [hbb, hl, hpk]
          simp
        have hrcf : sb_restaurant_conflict s sb = false := (clean_ok_iff.mp hok).1
        have hr : rn = r0 :=
          conflict_false_same_restaurant hrcf (by rw [hbb]; exact hbr) hrn hcnt
        rw [hall x hx, hrn, hr]
  rcases hmem h1 with ⟨h1o, h1pk⟩ | ⟨hx1, hbb, hex⟩ <;>
    rcases hmem h2 with ⟨h2o, h2pk⟩ | ⟨hx2, hbb2, hex2⟩
  · exact hinv b hb sb1 h1o sb2 h2o
  · show seat_restaurant s sb1.seat = seat_restaurant s sb2.seat
    rw [hx2]
    exact key sb1 h1o h1pk hbb2 hex2
  · show seat_restaurant s sb1.seat = seat_restaurant s sb2.seat
    rw [hx1]
    exact (key sb2 h2o h2pk hbb hex).symm
  · show seat_restaurant s sb1.seat = seat_restaurant s sb2.seat
    rw [hx1, hx2]

/-- Counterexample state for claim C4.  Restaurants 1 and 2; table 1 at
restaurant 1, tables 2 and 3 at restaurant 2; one seat per table (seat n on
table n).  Booking 2 already holds seat 1 (restaurant 1) through seat-booking
pk 1; seat-booking pk 2 currently attaches seat 3 (restaurant 2) to
booking 1. -/
def stE : State :=
  ⟨[], [⟨1, "A"⟩, ⟨2, "B"⟩],
    [⟨1, 1, 1, none⟩, ⟨2, 1, 2, none⟩, ⟨3, 2, 2, none⟩],
    [⟨1, 1, 0⟩, ⟨2, 2, 0⟩, ⟨3, 3, 0⟩],
    [⟨1, 0, 10⟩, ⟨2, 100, 110⟩],
    [⟨some 1, 1, 2, 0⟩, ⟨some 2, 3, 1, 1⟩], [], [], []⟩

/-- The state after updating seat-booking pk 2 to seat 2 and booking 2. -/
def stE2 : State :=
  { stE with seatBookings := [⟨some 1, 1, 2, 0⟩, ⟨some 2, 2, 2, 1⟩] }

/-- Claim C4, counterexample: updating persisted seat-booking pk 2 so that it
moves to booking 2 with seat 2 (restaurant 2) passes `SeatBooking.clean` and
is saved, although booking 2's derived restaurant is 1 and the update makes
it booking 2's second seat-booking — the clean-time count
`booking.seat_bookings.count() + (1 if not self.pk else 0)` stays below two
because the moved row is not yet among booking 2's persisted rows.  The
one-restaurant invariant held before the update and is broken after it. -/
theorem C4_counterexample :
    same_restaurant_inv stE ∧
      booking_restaurant stE 2 = some 1 ∧
      seat_restaurant stE 2 = some 2 ∧
      seat_booking_update stE ⟨some 2, 2, 2, 1⟩ = Except.ok stE2 ∧
      ¬ same_restaurant_inv stE2 := by
  refine ⟨by decide, by decide, by decide, by decide, by decide⟩

/-- Claim C4 (amended): on a resolved state with distinct table ids that
satisfies the one-restaurant invariant, (a) a new seat-booking whose seat's
table is at a different restaurant than its booking's derived restaurant is
rejected with the "same restaurant" validation error once it would be at
least the booking's second seat-booking; (b) every successful create
preserves the invariant; (c) every successful update that keeps the
seat-booking attached to the same booking preserves the invariant.  (An
update that moves a seat-booking to a different booking can break the
invariant, as the counterexample shows.) -/
theorem C4_same_restaurant (s : State) (sb : SeatBooking)
    (hids : (s.tables.map Table.id).Nodup)
    (hres : seat_bookings_resolved s = true)
    (hinv : same_restaurant_inv s)
    (hnew : (seat_restaurant s sb.seat).isSome = true) :
    (∀ r r2, sb.pk = none → booking_restaurant s sb.booking = some r →
      booking_seat_bookings s sb.booking ≠ [] →
      seat_restaurant s sb.seat = some r2 → r2 ≠ r →
      seat_booking_clean s sb =
        Except.error ⟨none,
          "The tables within this Booking must all be at the same restaurant.",
          ErrCode.invalid⟩) ∧
    (∀ fresh s', seat_booking_create s sb fresh = Except.ok s' → sb.pk = none →
      same_restaurant_inv s') ∧
    (∀ i s', sb.pk = some i →
      (∀ x ∈ s.seatBookings, x.pk = some i → x.booking = sb.booking) →
      seat_booking_update s sb = Except.ok s' →
      same_restaurant_inv s') := by
  refine ⟨?_, ?_, ?_⟩
  · intro r r2 hpk hbr hne0 hsr hner
    exact create_mismatch_rejected s sb r r2 hpk hbr hne0 hsr hner
  · intro fresh s' hsave hpk
    obtain ⟨hok, rfl⟩ := seat_booking_create_ok hsave
    exact create_preserves_inv s sb fresh hids hres hinv hnew hpk hok
  · intro i s' hpk hsame hsave
    obtain ⟨hok, rfl⟩ := seat_booking_update_ok hsave
    exact update_preserves_inv s sb i hids hres hinv hnew hpk hsame hok

/-- Witness state for the amended claim C4: restaurant 1, table 1 with seats
1 and 2, booking 1 already holding seat 1, and a new unsaved seat-booking of
seat 2 for booking 1. -/
def stF : State :=
  ⟨[], [⟨1, "A"⟩], [⟨1, 1, 1, none⟩], [⟨1, 1, 0⟩, ⟨2, 1, 1⟩],
    [⟨1, 0, 10⟩], [⟨some 1, 1, 1, 0⟩], [], [], []⟩

/-- `stF` after creating the second seat-booking with fresh pk 2. -/
def stF2 : State :=
  { stF with seatBookings := [⟨some 1, 1, 1, 0⟩, ⟨some 2, 2, 1, 1⟩] }

/-- Concrete instantiation of `C4_same_restaurant` on `stF`: the create of
the second (same-restaurant) seat-booking succeeds and the resulting state
still satisfies the one-restaurant invariant. -/
theorem C4_same_restaurant_witness :
    (stF.tables.map Table.id).Nodup ∧
      seat_bookings_resolved stF = true ∧
      same_restaurant_inv stF ∧
      (seat_restaurant stF 2).isSome = true ∧
      seat_booking_create stF ⟨none, 2, 1, 1⟩ 2 = Except.ok stF2 ∧
      same_restaurant_inv stF2 :=
  ⟨by decide, by decide, by decide, by decide, by decide,
    (C4_same_restaurant stF ⟨none, 2, 1, 1⟩ (by decide) (by decide) (by decide)
        (by decide)).2.1 2 stF2 (by decide) rfl⟩

/-- Substring test used to check the spec's wording about error messages:
`containsSub needle hay` is true when `needle` occurs contiguously in
`hay`. -/
def containsSub (needle hay : String) : Bool :=
  (List.range (hay.data.length + 1)).any fun i =>
    needle.data == (hay.data.drop i).take needle.data.length

/-- The restaurant of an order's seat-booking, reached through
`seat_booking.seat.table.restaurant`. -/
def order_restaurant (s : State) (o : OrderR) : Option Nat :=
  match s.seatBookings.find? (fun sb => sb.pk == some o.seat_booking) with
  | none => none
  | some sb => seat_restaurant s sb.seat

/-- Embedding of `Order.clean`: reject when the seat-booking's restaurant is
not in the menu item's `available_at_restaurants` set.  (`seat_booking_id`
and `menu_item_id` are non-null foreign keys; a dangling reference leaves
the check inactive.) -/
def order_clean (s : State) (o : OrderR) : Except VError Unit :=
  match order_restaurant s o with
  | none => Except.ok ()
  | some rid =>
    if !(s.availableAt.contains (o.menu_item, rid)) then
      Except.error ⟨some "menu_item",
        "Only menu items at this booking\x27s restaurant can be ordered.",
        ErrCode.invalid⟩
    else Except.ok ()

/-- State for the order-availability claim: restaurant 1, table 1, seat 1,
booking 1, seat-booking pk 1, menu item 1, empty availability set. -/
def stG : State :=
  ⟨[], [⟨1, "A"⟩], [⟨1, 1, 1, none⟩], [⟨1, 1, 0⟩], [⟨1, 0, 10⟩],
    [⟨some 1, 1, 1, 0⟩], [⟨1, "Pie"⟩], [], []⟩

/-- Claim C6, counterexample: the unavailable-item order does fail with a
validation error on the `menu_item` field, but the message is
"Only menu items at this booking's restaurant can be ordered.", which does
NOT contain the substring "available at this booking's restaurant" that the
claim requires. -/
theorem C6_counterexample :
    order_clean stG ⟨none, 1, 1, 0, ""⟩ =
      Except.error ⟨some "menu_item",
        "Only menu items at this booking\x27s restaurant can be ordered.",
        ErrCode.invalid⟩ ∧
    containsSub "available at this booking\x27s restaurant"
      "Only menu items at this booking\x27s restaurant can be ordered." = false := by
  refine ⟨by decide, by decide⟩

/-- Claim C6 (amended): an order whose menu item is not available at the
restaurant of its seat-booking's seat's table fails with a validation error
on the `menu_item` field whose message contains "at this booking's
restaurant" (the exact message is "Only menu items at this booking's
restaurant can be ordered."); an order whose menu item is available
succeeds; and after adding that restaurant to the item's availability set
the same order succeeds. -/
theorem C6_order_availability (s : State) (o : OrderR) (rid : Nat)
    (hr : order_restaurant s o = some rid) :
    ((o.menu_item, rid) ∉ s.availableAt →
      order_clean s o = Except.error ⟨some "menu_item",
        "Only menu items at this booking\x27s restaurant can be ordered.",
        ErrCode.invalid⟩) ∧
    containsSub "at this booking\x27s restaurant"
      "Only menu items at this booking\x27s restaurant can be ordered." = true ∧
    ((o.menu_item, rid) ∈ s.availableAt → order_clean s o = Except.ok ()) ∧
    order_clean { s with availableAt := s.availableAt ++ [(o.menu_item, rid)] } o =
      Except.ok () := by
  refine ⟨?_, by decide, ?_, ?_⟩
  · intro hnot
    have hc : s.availableAt.contains (o.menu_item, rid) = false := by
      cases hcc : s.availableAt.contains (o.menu_item, rid) with
      | false => rfl
      | true => exact absurd (List.mem_of_elem_eq_true hcc) hnot
    rw [order_clean]
    simp only [hr, hc, Bool.not_false, if_true]
  · intro hmem
    rw [order_clean]
    simp only [hr, List.elem_eq_true_of_mem hmem, Bool.not_true, Bool.false_eq_true, if_false]
  · have hr' : order_restaurant
        { s with availableAt := s.availableAt ++ [(o.menu_item, rid)] } o =
        some rid := hr
    have hmem : (o.menu_item, rid) ∈ s.availableAt ++ [(o.menu_item, rid)] := by
      simp
    rw [order_clean]
    simp only [hr', List.elem_eq_true_of_mem hmem, Bool.not_true, Bool.false_eq_true, if_false]

/-- Concrete instantiation of `C6_order_availability` on `stG`. -/
theorem C6_order_availability_witness :
    order_restaurant stG ⟨none, 1, 1, 0, ""⟩ = some 1 ∧
      order_clean stG ⟨none, 1, 1, 0, ""⟩ =
        Except.error ⟨some "menu_item",
          "Only menu items at this booking\x27s restaurant can be ordered.",
          ErrCode.invalid⟩ ∧
      order_clean { stG with availableAt := stG.availableAt ++ [(1, 1)] }
        ⟨none, 1, 1, 0, ""⟩ = Except.ok () :=
  ⟨by decide,
    (C6_order_availability stG ⟨none, 1, 1, 0, ""⟩ 1 (by decide)).1 (by decide),
    (C6_order_availability stG ⟨none, 1, 1, 0, ""⟩ 1 (by decide)).2.2.2⟩

/-- The duplicate-name test of the `user_added_to_restaurant` signal
handler: some other persisted employee of the restaurant (excluding the user
itself by id) shares the first & last name. -/
def duplicate_name_employee (s : State) (rid : Nat) (u : UserR) : Bool :=
  s.users.any fun u2 =>
    match u2.pk with
    | none => false
    | some id2 =>
      s.employees.contains (rid, id2) && u2.pk != u.pk &&
        u2.first_name == u.first_name && u2.last_name == u.last_name

/-- `restaurant.employees.add(user)` with the `m2m_changed` `pre_add` signal
handler: the user ids in `pk_set` are looked up, the duplicate-name check
runs, and either the `IntegrityError` aborts the insertion (the caller's
`transaction.atomic` rolls back) or the relation row is inserted.  A pk that
matches no user is dropped by the handler's queryset filter. -/
def restaurant_add_employee (s : State) (rid uid : Nat) : Except String State :=
  match s.users.find? (fun u => u.pk == some uid) with
  | none => Except.ok s
  | some u =>
    if duplicate_name_employee s rid u then
      Except.error "UNIQUE constraint failed: smartserve_user.first_name, smartserve_user.last_name, smartserve_restaurant.id"
    else Except.ok { s with employees := s.employees ++ [(rid, uid)] }

/-- `user.restaurants.add(restaurant)` (the reverse direction of the
many-to-many relation) with the same `pre_add` signal handler: here the
in-memory instance is the user and the restaurants in `pk_set` are looked
up. -/
def user_add_restaurant (s : State) (u : UserR) (rid : Nat) : Except String State :=
  match u.pk with
  | none => Except.ok s
  | some uid =>
    match s.restaurants.find? (fun r => r.id == rid) with
    | none => Except.ok { s with employees := s.employees ++ [(rid, uid)] }
    | some _ =>
      if duplicate_name_employee s rid u then
        Except.error "UNIQUE constraint failed: smartserve_restaurant.first_name, smartserve_restaurant.last_name, smartserve_user.id"
      else Except.ok { s with employees := s.employees ++ [(rid, uid)] }

/-- The state after an operation, with `transaction.atomic` rollback on
error. -/
def after_op (s : State) : Except String State → State
  | Except.ok s' => s'
  | Except.error _ => s

theorem find_user_by_pk {s : State} {u : UserR} {id : Nat}
    (hupk : (s.users.map UserR.pk).Nodup) (hmem : u ∈ s.users)
    (hpk : u.pk = some id) :
    s.users.find? (fun u2 => u2.pk == some id) = some u := by
  cases hf : s.users.find? (fun u2 => u2.pk == some id) with
  | none =>
    have hex : (s.users.find? (fun u2 => u2.pk == some id)).isSome := by
      rw [List.find?_isSome]
      exact ⟨u, hmem, by simp [hpk]⟩
    rw [hf] at hex
    simp at hex
  | some u' =>
    have hmem' := List.mem_of_find?_eq_some hf
    have hpred := List.find?_some hf
    have hpk' : u'.pk = some id := by simpa using hpred
    have : u' = u :=
      List.inj_on_of_nodup_map hupk hmem' hmem (by rw [hpk', hpk])
    rw [this]

/-- Claim C5: attaching a user E2 to restaurant R's employee set fails with
an integrity error in both directions of the many-to-many relation when an
existing employee E1 of R shares E2's (first name, last name) pair, and E2
is not a member of R's employee set after the operation. -/
theorem C5_duplicate_employee_name (s : State) (r : Restaurant)
    (e1 e2 : UserR) (id1 id2 : Nat)
    (hupk : (s.users.map UserR.pk).Nodup)
    (hr : r ∈ s.restaurants)
    (he1 : e1 ∈ s.users) (he2 : e2 ∈ s.users)
    (hpk1 : e1.pk = some id1) (hpk2 : e2.pk = some id2)
    (hemp1 : (r.id, id1) ∈ s.employees)
    (hfn : e1.first_name = e2.first_name) (hln : e1.last_name = e2.last_name)
    (hne : id1 ≠ id2)
    (hnot : (r.id, id2) ∉ s.employees) :
    (∃ msg, restaurant_add_employee s r.id id2 = Except.error msg) ∧
    (r.id, id2) ∉ (after_op s (restaurant_add_employee s r.id id2)).employees ∧
    (∃ msg, user_add_restaurant s e2 r.id = Except.error msg) ∧
    (r.id, id2) ∉ (after_op s (user_add_restaurant s e2 r.id)).employees := by
  have hdup : duplicate_name_employee s r.id e2 = true := by
    rw [duplicate_name_employee, List.any_eq_true]
    refine ⟨e1, he1, ?_⟩
    simp only [hpk1]
    rw [Bool.and_eq_true, Bool.and_eq_true, Bool.and_eq_true]
    refine ⟨⟨⟨List.elem_eq_true_of_mem hemp1, ?_⟩, ?_⟩, ?_⟩
    · rw [hpk2]
      exact bne_iff_ne.mpr (by simpa using hne)
    · exact beq_iff_eq.mpr hfn
    · exact beq_iff_eq.mpr hln
  have hfind := find_user_by_pk hupk he2 hpk2
  have hfwd : restaurant_add_employee s r.id id2 =
      Except.error "UNIQUE constraint failed: smartserve_user.first_name, smartserve_user.last_name, smartserve_restaurant.id" := by
    rw [restaurant_add_employee]
    simp only [hfind, hdup, if_true]
  have hrev : user_add_restaurant s e2 r.id =
      Except.error "UNIQUE constraint failed: smartserve_restaurant.first_name, smartserve_restaurant.last_name, smartserve_user.id" := by
    rw [user_add_restaurant]
    simp only [hpk2]
    cases hfr : s.restaurants.find? (fun r2 => r2.id == r.id) with
    | none =>
      have hex : (s.restaurants.find? (fun r2 => r2.id == r.id)).isSome := by
        rw [List.find?_isSome]
        exact ⟨r, hr, by simp⟩
      rw [hfr] at hex
      simp at hex
    | some rr => simp only [hdup, if_true]
  refine ⟨⟨_, hfwd⟩, ?_, ⟨_, hrev⟩, ?_⟩
  · rw [hfwd]
    exact hnot
  · rw [hrev]
    exact hnot

/-- State for the employee-name claim: restaurant 1 employs user pk 1
("Ada Smith"); user pk 2 has the same first & last name and is not yet an
employee. -/
def stH : State :=
  ⟨[⟨some 1, "100001", "Ada", "Smith", false, true, false⟩,
    ⟨some 2, "100002", "Ada", "Smith", false, true, false⟩],
    [⟨1, "A"⟩], [], [], [], [], [], [(1, 1)], []⟩

/-- Concrete instantiation of `C5_duplicate_employee_name` on `stH`. -/
theorem C5_duplicate_employee_name_witness :
    (∃ msg, restaurant_add_employee stH 1 2 = Except.error msg) ∧
      (1, 2) ∉ (after_op stH (restaurant_add_employee stH 1 2)).employees ∧
      (∃ msg, user_add_restaurant stH
        ⟨some 2, "100002", "Ada", "Smith", false, true, false⟩ 1 = Except.error msg) ∧
      (1, 2) ∉ (after_op stH (user_add_restaurant stH
        ⟨some 2, "100002", "Ada", "Smith", false, true, false⟩ 1)).employees :=
  C5_duplicate_employee_name stH ⟨1, "A"⟩
    ⟨some 1, "100001", "Ada", "Smith", false, true, false⟩
    ⟨some 2, "100002", "Ada", "Smith", false, true, false⟩ 1 2
    (by decide) (by decide) (by decide) (by decide) rfl rfl (by decide)
    rfl rfl (by decide) (by decide)

/-- The field mutations performed by `User.clean` before its uniqueness
check: a superuser is forced to be staff, and an empty employee id is
replaced by a generated one (`utils.generate_employee_id`, supplied here as
the argument `gen_id`). -/
def user_clean_fields (u : UserR) (gen_id : String) : UserR :=
  let u1 := if u.is_superuser then { u with is_staff := true } else u
  if u1.employee_id = "" then { u1 with employee_id := gen_id } else u1

/-- Embedding of `User.clean`: mutate the flags and employee id, then, for a
persisted user, reject a duplicate full name among the restaurants the user
is assigned to.  (The source attaches the same message to both the
`first_name` and `last_name` fields; the embedding keeps the first.) -/
def user_clean (s : State) (u : UserR) (gen_id : String) : Except VError UserR :=
  let u2 := user_clean_fields u gen_id
  if u2.pk.isSome &&
      (s.restaurants.any fun r =>
        (match u2.pk with
         | none => false
         | some uid => s.employees.contains (r.id, uid)) &&
        duplicate_name_employee s r.id u2) then
    Except.error ⟨some "first_name",
      "An employee with that first & last name already exists at one of the restaurants that this employee is assigned to.",
      ErrCode.unique⟩
  else Except.ok u2

/-- `Custom_Base_Model.save` for a user: `full_clean` runs `User.clean`
(including its mutations), then the row is inserted with a fresh primary
key or overwritten in place. -/
def user_save (s : State) (u : UserR) (gen_id : String) (fresh : Nat) :
    Except VError State :=
  match user_clean s u gen_id with
  | Except.error e => Except.error e
  | Except.ok u2 =>
    match u2.pk with
    | none => Except.ok { s with users := s.users ++ [{ u2 with pk := some fresh }] }
    | some i =>
      Except.ok { s with
        users := s.users.map (fun x => if x.pk == some i then u2 else x) }

theorem user_clean_fields_staff (u : UserR) (gen_id : String) :
    (user_clean_fields u gen_id).is_superuser = true →
      (user_clean_fields u gen_id).is_staff = true := by
  intro h
  rw [user_clean_fields] at h ⊢
  cases hsu : u.is_superuser with
  | true =>
    simp only [hsu, if_true]
    split <;> rfl
  | false =>
    exfalso
    simp only [hsu, Bool.false_eq_true, if_false] at h
    split at h <;> simp_all

theorem user_clean_ok {s : State} {u u2 : UserR} {gen_id : String}
    (h : user_clean s u gen_id = Except.ok u2) :
    u2 = user_clean_fields u gen_id := by
  rw [user_clean] at h
  split at h
  · cases h
  · simpa using h.symm

/-- Claim C10: every successfully saved user satisfies
`is_superuser → is_staff` — `User.clean` forces `is_staff` whenever
`is_superuser` is set and `Custom_Base_Model.save` validates on every save,
so saving into a state whose persisted users all satisfy the implication
yields a state whose persisted users all satisfy it. -/
theorem C10_superuser_implies_staff (s : State) (u : UserR)
    (gen_id : String) (fresh : Nat) (s' : State)
    (hall : ∀ u' ∈ s.users, u'.is_superuser = true → u'.is_staff = true)
    (hsave : user_save s u gen_id fresh = Except.ok s') :
    ∀ u' ∈ s'.users, u'.is_superuser = true → u'.is_staff = true := by
  cases hc : user_clean s u gen_id with
  | error e => rw [user_save, hc] at hsave; cases hsave
  | ok u2 =>
    simp only [user_save, hc] at hsave
    have hu2 : u2.is_superuser = true → u2.is_staff = true := by
      rw [user_clean_ok hc]
      exact user_clean_fields_staff u gen_id
    cases hpk : u2.pk with
    | none =>
      simp only [hpk] at hsave
      have hs' : s' = { s with users := s.users ++ [{ u2 with pk := some fresh }] } := by
        simpa using hsave.symm
      rw [hs']
      intro u' hmem hsu
      rcases List.mem_append.mp hmem with hold | hnew
      · exact hall u' hold hsu
      · have : u' = { u2 with pk := some fresh } := by simpa using hnew
        rw [this] at hsu ⊢
        exact hu2 hsu
    | some i =>
      simp only [hpk] at hsave
      have hs' : s' = { s with
          users := s.users.map (fun x => if x.pk == some i then u2 else x) } := by
        simpa using hsave.symm
      rw [hs']
      intro u' hmem hsu
      rcases List.mem_map.mp hmem with ⟨y, hy, hyx⟩
      by_cases hcase : (y.pk == some i) = true
      · rw [hcase] at hyx
        simp only [if_true] at hyx
        rw [← hyx] at hsu ⊢
        exact hu2 hsu
      · rw [Bool.not_eq_true] at hcase
        rw [hcase] at hyx
        simp only [Bool.false_eq_true, if_false] at hyx
        rw [← hyx] at hsu ⊢
        exact hall y hy hsu

/-- `stH` after saving a new superuser that was not marked staff: the
persisted row is both superuser and staff. -/
def stH2 : State :=
  { stH with users := stH.users ++
      [⟨some 3, "100003", "Grace", "Hopper", true, true, true⟩] }

/-- Concrete instantiation of `C10_superuser_implies_staff`: saving a
superuser created with `is_staff = false` yields a state where every
persisted superuser is staff. -/
theorem C10_superuser_implies_staff_witness :
    user_save stH ⟨none, "100003", "Grace", "Hopper", false, true, true⟩
        "000000" 3 = Except.ok stH2 ∧
      (∀ u' ∈ stH2.users, u'.is_superuser = true → u'.is_staff = true) :=
  ⟨by decide,
    C10_superuser_implies_staff stH
      ⟨none, "100003", "Grace", "Hopper", false, true, true⟩ "000000" 3 stH2
      (by decide) (by decide)⟩

end SmartServe
